import Mathlib

/-!
Verification of the resilient data-acquisition layer of game-stats-exporter:
the truncated binary world-feed decoder, the rate-limit coordinator, and the
activity-adaptive cache-freshness policy.

Bytes are modelled as natural numbers; payloads as lists of bytes.
Machine integers are modelled as Nat or Int with explicit reduction
modulo 2^w where the code's fixed-width types matter.
-/

namespace GameStats

/-! ## World data model (internal/osrs types) -/

inductive WorldLocation
  | usa | uk | australia | germany | unknown
deriving DecidableEq, Repr

inductive WorldType
  | freeToPlay | members | pvp | bounty | pvpArena | skillTotal
  | questSpeedrunning | highRisk | lastManStanding | noSaveMode
  | tournament | freshStartWorld | deadman | beta | soulWars
  | minigame | seasonal | unknown
deriving DecidableEq, Repr

structure World where
  id : Nat
  types : List WorldType
  address : List Nat
  activity : List Nat
  location : WorldLocation
  players : Int
deriving DecidableEq, Repr

/-- locationFromByte: converts the location byte to a WorldLocation
(the byte is read as int8 in the source; the cases 0, 1, 3, 7 coincide
with the raw byte values). -/
def locationFromByte (b : Nat) : WorldLocation :=
  if b = 0 then .usa
  else if b = 1 then .uk
  else if b = 3 then .australia
  else if b = 7 then .germany
  else .unknown

/-- parseWorldTypes: decodes the 32-bit flag word into the list of named
flags, in fixed bit order; an empty result defaults to FreeToPlay. -/
def parseWorldTypes (flags : Nat) : List WorldType :=
  let types : List WorldType :=
    (if flags.testBit 0 then [.members] else []) ++
    (if flags.testBit 2 then [.pvp] else []) ++
    (if flags.testBit 5 then [.bounty] else []) ++
    (if flags.testBit 6 then [.pvpArena] else []) ++
    (if flags.testBit 7 then [.skillTotal] else []) ++
    (if flags.testBit 8 then [.questSpeedrunning] else []) ++
    (if flags.testBit 10 then [.highRisk] else []) ++
    (if flags.testBit 14 then [.lastManStanding] else []) ++
    (if flags.testBit 22 then [.soulWars] else []) ++
    (if flags.testBit 23 then [.beta] else []) ++
    (if flags.testBit 25 then [.noSaveMode] else []) ++
    (if flags.testBit 26 then [.tournament] else []) ++
    (if flags.testBit 27 then [.freshStartWorld] else []) ++
    (if flags.testBit 28 then [.minigame] else []) ++
    (if flags.testBit 29 then [.deadman] else []) ++
    (if flags.testBit 30 then [.seasonal] else [])
  if types = [] then [.freeToPlay] else types

/-- World.IsMembers: true when the Members flag is among the parsed types. -/
def World.isMembers (w : World) : Bool :=
  w.types.contains WorldType.members

/-- The set of types named as cases in the switch inside World.WorldType.
Members, FreeToPlay, Beta and Unknown are not cases of that switch. -/
def isWorldTypeSwitchCase : WorldType → Bool
  | .questSpeedrunning => true
  | .highRisk => true
  | .lastManStanding => true
  | .bounty => true
  | .pvp => true
  | .pvpArena => true
  | .noSaveMode => true
  | .deadman => true
  | .tournament => true
  | .skillTotal => true
  | .freshStartWorld => true
  | .minigame => true
  | .soulWars => true
  | .seasonal => true
  | _ => false

/-- The loop inside World.WorldType: the switch on each element returns that
element as soon as it matches any case, so the first element of the list
that is a switch case wins. -/
def firstSwitchCase : List WorldType → Option WorldType
  | [] => none
  | t :: rest => if isWorldTypeSwitchCase t then some t else firstSwitchCase rest

/-- World.WorldType: iterates over w.types with a switch; falls back to
Members when the Members flag is present, else FreeToPlay. -/
def World.worldType (w : World) : WorldType :=
  match firstSwitchCase w.types with
  | some t => t
  | none => if w.isMembers then WorldType.members else WorldType.freeToPlay

/-- Modelled from the spec: the fixed priority list
quest-speedrun > high-risk > last-man-standing > bounty > PVP > PVP-arena >
no-save > deadman > tournament > skill-total > fresh-start > minigame >
soul-wars > seasonal > members > free-to-play. Used only to compare the
spec's claimed resolution rule against the code's World.WorldType. -/
def specPriorityOrder : List WorldType :=
  [.questSpeedrunning, .highRisk, .lastManStanding, .bounty, .pvp, .pvpArena,
   .noSaveMode, .deadman, .tournament, .skillTotal, .freshStartWorld,
   .minigame, .soulWars, .seasonal, .members, .freeToPlay]

/-- Modelled from the spec: the first flag of the priority list that is
present wins, independent of the order in which flags were set. -/
def specWorldType (types : List WorldType) : WorldType :=
  match specPriorityOrder.find? (fun p => types.contains p) with
  | some t => t
  | none => WorldType.freeToPlay

/-! ## Byte-level readers (bytes.Reader plus encoding/binary, little-endian) -/

/-- Reads 2 bytes little-endian (binary.Read of a 16-bit value); fails when
fewer than 2 bytes remain. -/
def readU16 : List Nat → Option (Nat × List Nat)
  | a :: b :: rest => some (a + 256 * b, rest)
  | _ => none

/-- Reads 4 bytes little-endian (binary.Read of a 32-bit value). -/
def readU32 : List Nat → Option (Nat × List Nat)
  | a :: b :: c :: d :: rest =>
      some (a + 256 * b + 65536 * c + 16777216 * d, rest)
  | _ => none

/-- Reads a single byte. -/
def readU8 : List Nat → Option (Nat × List Nat)
  | b :: rest => some (b, rest)
  | _ => none

/-- Interprets an unsigned 16-bit pattern as the signed int16 it encodes. -/
def toInt16 (u : Nat) : Int :=
  if u % 65536 < 32768 then (u % 65536 : Nat) else (u % 65536 : Nat) - 65536

/-- readNullTerminatedString: consumes bytes up to and including the first
zero byte; fails with EOF when no terminator is found. -/
def readNullTerminatedString : List Nat → Option (List Nat × List Nat)
  | [] => none
  | b :: rest =>
    if b = 0 then some ([], rest)
    else
      match readNullTerminatedString rest with
      | none => none
      | some (s, r) => some (b :: s, r)

/-! ## decodeWorldData (internal/osrs/client.go) -/

/-- OSRS world ids are valid in the range 300 to 700. -/
def validWorldID (id : Nat) : Bool :=
  300 ≤ id && id ≤ 700

/-- The field reads of one record after its id: 4-byte type flags,
null-terminated address, null-terminated activity, 1-byte location,
2-byte player count. Each failure is the hard error the source raises. -/
def decodeFields (id : Nat) (rem : List Nat) :
    Except String (World × List Nat) :=
  match readU32 rem with
  | none => .error "failed to read world type flags"
  | some (flags, r1) =>
    match readNullTerminatedString r1 with
    | none => .error "failed to read address"
    | some (addr, r2) =>
      match readNullTerminatedString r2 with
      | none => .error "failed to read activity"
      | some (act, r3) =>
        match readU8 r3 with
        | none => .error "failed to read location"
        | some (loc, r4) =>
          match readU16 r4 with
          | none => .error "failed to read player count"
          | some (pc, r5) =>
            .ok ({ id := id, types := parseWorldTypes flags, address := addr,
                   activity := act, location := locationFromByte loc,
                   players := toInt16 pc }, r5)

/-- The realignment scan: starting at byte offset 1 from the iteration's
start position, re-read a candidate 2-byte id at each offset while
offset < 20 and at least 2 bytes remain at the reader's current position;
stop at the first id inside the valid range. fuel = 20 - offset. -/
def scanLoop (snap : List Nat) : Nat → Nat → Nat → Option (Nat × List Nat)
  | _, _, 0 => none
  | offset, curLen, fuel + 1 =>
    if 2 ≤ curLen then
      match readU16 (snap.drop offset) with
      | none => none
      | some (id, rest) =>
        if validWorldID id then some (id, rest)
        else scanLoop snap (offset + 1) ((snap.drop offset).length) fuel
    else none

/-- The record loop of decodeWorldData. fuel counts the remaining
iterations (maxAttempts - i); i is the zero-based record index; acc holds
the decoded records in reverse. Breaks return the records decoded so far;
field failures inside a record raise the hard error. -/
def decodeLoop (parseIter : Bool) :
    Nat → Nat → List Nat → List World → Except String (List World)
  | 0, _, _, acc => .ok acc.reverse
  | fuel + 1, i, rem, acc =>
    if rem.length < 11 then .ok acc.reverse
    else
      match readU16 rem with
      | none => .ok acc.reverse
      | some (id, r1) =>
        if validWorldID id then
          match decodeFields id r1 with
          | .error e => .error e
          | .ok (w, r2) => decodeLoop parseIter fuel (i + 1) r2 (w :: acc)
        else
          if i = 0 ∧ parseIter = true then
            match scanLoop rem 1 (rem.length - 2) 19 with
            | none => .ok []
            | some (id2, r2) =>
              match decodeFields id2 r2 with
              | .error e => .error e
              | .ok (w, r3) => decodeLoop parseIter fuel (i + 1) r3 (w :: acc)
          else .ok acc.reverse

/-- decodeWorldData: 4-byte buffer size (read and ignored), 2-byte signed
record count, then the record loop. A count outside 1..200 switches to
iterative mode with 300 attempts. Payloads shorter than 6 bytes are the
only hard header error. -/
def decodeWorldData (data : List Nat) : Except String (List World) :=
  match data with
  | _ :: _ :: _ :: _ :: c0 :: c1 :: rest =>
    let numWorlds : Int := toInt16 (c0 + 256 * c1)
    if numWorlds ≤ 0 ∨ 200 < numWorlds then
      decodeLoop true 300 0 rest []
    else
      decodeLoop false numWorlds.toNat 0 rest []
  | _ => .error "response too short"

/-! ## Payload encoders (the wire format of section 4.1, used to state the
decoder theorems: 2-byte id, 4-byte flags, null-terminated address and
activity, 1-byte location, 2-byte player count, all little-endian) -/

def encodeU16 (n : Nat) : List Nat := [n % 256, n / 256 % 256]

def encodeU32 (n : Nat) : List Nat :=
  [n % 256, n / 256 % 256, n / 65536 % 256, n / 16777216 % 256]

/-- The field values of one wire record, before decoding. -/
structure RawRecord where
  id : Nat
  flags : Nat
  address : List Nat
  activity : List Nat
  locByte : Nat
  players : Nat
deriving DecidableEq, Repr

/-- A wire record is well formed when its id is in the valid range, its
fixed-width fields fit their widths, and its strings are null-free bytes. -/
def RawRecord.WF (r : RawRecord) : Prop :=
  300 ≤ r.id ∧ r.id ≤ 700 ∧ r.flags < 4294967296 ∧
  (∀ b ∈ r.address, b < 256 ∧ b ≠ 0) ∧
  (∀ b ∈ r.activity, b < 256 ∧ b ≠ 0) ∧
  r.locByte < 256 ∧ r.players < 65536

/-- The bytes of a record after its 2-byte id. -/
def encodeRecordTail (r : RawRecord) : List Nat :=
  encodeU32 r.flags ++ r.address ++ [0] ++ r.activity ++ [0] ++
    [r.locByte] ++ encodeU16 r.players

def encodeRecord (r : RawRecord) : List Nat :=
  encodeU16 r.id ++ encodeRecordTail r

def encodeRecords : List RawRecord → List Nat
  | [] => []
  | r :: rs => encodeRecord r ++ encodeRecords rs

/-- The World that decoding a well-formed wire record produces. -/
def RawRecord.toWorld (r : RawRecord) : World :=
  { id := r.id, types := parseWorldTypes r.flags, address := r.address,
    activity := r.activity, location := locationFromByte r.locByte,
    players := toInt16 r.players }

/-! ## RateLimitState (internal/steam rate limiter)

Time instants and durations are nanoseconds, as in the source's
time.Time / time.Duration. -/

def secondNs : Nat := 1000000000
def minuteNs : Nat := 60 * secondNs
def hourNs : Nat := 3600 * secondNs
def initialBackoff : Nat := hourNs
def maxBackoff : Nat := 24 * hourNs

structure RateLimitState where
  isRateLimited : Bool
  blockedUntil : Nat
  consecutive403 : Nat
  backoffHours : Nat
deriving DecidableEq, Repr

/-- NewRateLimitState with an empty persistence cache. -/
def initialRateLimitState : RateLimitState :=
  { isRateLimited := false, blockedUntil := 0, consecutive403 := 0,
    backoffHours := 1 }

/-- The backoff doubling loop of Record403: run up to n times while the
duration is below the maximum, clamping at the maximum. -/
def backoffLoop : Nat → Nat → Nat
  | d, 0 => d
  | d, n + 1 =>
    if d < maxBackoff then
      let d2 := d * 2
      if maxBackoff < d2 then maxBackoff else backoffLoop d2 n
    else d

/-- Record403 at time now: increment the consecutive rejection counter,
compute the exponential backoff, mark blocked until now + backoff. -/
def record403 (now : Nat) (rl : RateLimitState) : RateLimitState :=
  let c := rl.consecutive403 + 1
  let d := backoffLoop initialBackoff (c - 1)
  { isRateLimited := true, blockedUntil := now + d, consecutive403 := c,
    backoffHours := d / hourNs }

/-- CheckAndBlock at time now: true while blocked and now is before
blockedUntil; clears the blocked state once the window has expired. -/
def checkAndBlock (now : Nat) (rl : RateLimitState) :
    Bool × RateLimitState :=
  if rl.isRateLimited = false then (false, rl)
  else if now < rl.blockedUntil then (true, rl)
  else (false, { rl with isRateLimited := false, consecutive403 := 0,
                         backoffHours := 1 })

/-- A sequence of Record403 calls at the given instants. -/
def recordMany (ts : List Nat) (s : RateLimitState) : RateLimitState :=
  ts.foldl (fun s t => record403 t s) s

/-! ## Activity detection and achievement-cache TTL (steam collector)

The random source is modelled as a stream f of raw draws together with the
index of the next unconsumed draw; rand.Intn(n) consumes one draw. -/

/-- hasPlaytimeIncreased: with a cached entry, true exactly when the
current playtime exceeds the cached one; with no cached entry, true
(treat as increased: a fetch is needed). -/
def hasPlaytimeIncreased (cachedPlaytime : Option Int)
    (currentPlaytime : Int) : Bool :=
  match cachedPlaytime with
  | some prev => decide (prev < currentPlaytime)
  | none => true

/-- rand.Intn n: consume the next raw draw, reduced mod n. -/
def randIntn (n : Nat) (f : Nat → Nat) (k : Nat) : Nat × Nat :=
  (f k % n, k + 1)

/-- The TTL chosen by collectAchievements when caching user achievements:
2 minutes plus up to 180 seconds of jitter for an active player, 4 hours
plus up to 120 minutes of jitter otherwise. Returns the TTL in
nanoseconds and the index of the next unconsumed random draw. -/
def achievementCacheTTL (playtimeIncreased : Bool) (f : Nat → Nat)
    (k : Nat) : Nat × Nat :=
  if playtimeIncreased then
    let (j, k2) := randIntn 180 f k
    (2 * minuteNs + j * secondNs, k2)
  else
    let (j, k2) := randIntn 120 f k
    (4 * hourNs + j * minuteNs, k2)

/-! ## Metric reporting (osrs metrics) -/

/-- One sample of the world players gauge, with its labels and value. -/
structure WorldMetricSample where
  id : Nat
  location : WorldLocation
  isMembers : Bool
  worldType : WorldType
  players : Int
deriving DecidableEq, Repr

/-- The sample ReportWorldData emits for one world: the player count is
raised to 0 when negative and lowered to 2000 when above 2000. -/
def worldSample (w : World) : WorldMetricSample :=
  let pc := w.players
  let pc := if pc < 0 then 0 else pc
  let pc := if 2000 < pc then 2000 else pc
  { id := w.id, location := w.location, isMembers := w.isMembers,
    worldType := w.worldType, players := pc }

/-- ReportWorldData: resets the world gauge and emits one sample per
world. -/
def reportWorldData (worlds : List World) : List WorldMetricSample :=
  worlds.map worldSample

structure SkillInfo where
  rank : String
  level : String
  xp : String
  name : String
  player : String
  profile : String
deriving DecidableEq, Repr

inductive PlayerGauge
  | level | xp | rank
deriving DecidableEq, Repr

/-- One labelled gauge cell set by ReportPlayerStats. -/
structure PlayerMetricSample where
  gauge : PlayerGauge
  skill : String
  player : String
  profile : String
  mode : String
deriving DecidableEq, Repr

def digitVal (c : Char) : Option Nat :=
  if '0' ≤ c ∧ c ≤ '9' then some (c.toNat - 48) else none

def parseDigitsAux : List Char → Nat → Option Nat
  | [], acc => some acc
  | c :: cs, acc =>
    match digitVal c with
    | none => none
    | some d => parseDigitsAux cs (acc * 10 + d)

/-- A non-empty all-digit string parsed in base 10. -/
def parseDigits : List Char → Option Nat
  | [] => none
  | l => parseDigitsAux l 0

def int64Max : Int := 9223372036854775807
def int64MinMag : Nat := 9223372036854775808

/-- strconv.ParseInt(s, 10, 64) with the error discarded: malformed
strings give 0, out-of-range values clamp to the int64 bounds. -/
def parseInt64 (s : String) : Int :=
  match s.toList with
  | [] => 0
  | '+' :: rest =>
    (match parseDigits rest with
     | none => 0
     | some n => if int64Max < (n : Int) then int64Max else (n : Int))
  | '-' :: rest =>
    (match parseDigits rest with
     | none => 0
     | some n =>
       if int64MinMag < n then -(int64MinMag : Int) else -(n : Int))
  | l =>
    (match parseDigits l with
     | none => 0
     | some n => if int64Max < (n : Int) then int64Max else (n : Int))

/-- The samples ReportPlayerStats emits for one skill line: level and xp
always; rank only when the parsed rank is non-negative. -/
def playerSamplesFor (mode : String) (stat : SkillInfo) :
    List PlayerMetricSample :=
  [{ gauge := .level, skill := stat.name, player := stat.player,
     profile := stat.profile, mode := mode },
   { gauge := .xp, skill := stat.name, player := stat.player,
     profile := stat.profile, mode := mode }] ++
  (if 0 ≤ parseInt64 stat.rank then
    [{ gauge := .rank, skill := stat.name, player := stat.player,
       profile := stat.profile, mode := mode }]
   else [])

/-- ReportPlayerStats: resets the player gauges and emits the samples of
every skill line in order. -/
def reportPlayerStats (stats : List SkillInfo) (mode : String) :
    List PlayerMetricSample :=
  match stats with
  | [] => []
  | s :: rest => playerSamplesFor mode s ++ reportPlayerStats rest mode

/-! ## Decoder lemmas -/

theorem toInt16_small {n : Nat} (h : n < 32768) : toInt16 n = n := by
  unfold toInt16
  rw [Nat.mod_eq_of_lt (by omega)]
  simp [h]

theorem readU16_encodeU16 {n : Nat} (h : n < 65536) (l : List Nat) :
    readU16 (encodeU16 n ++ l) = some (n, l) := by
  simp only [encodeU16, List.cons_append, List.nil_append, readU16,
    Option.some.injEq, Prod.mk.injEq, and_true]
  omega

theorem readU32_encodeU32 {n : Nat} (h : n < 4294967296) (l : List Nat) :
    readU32 (encodeU32 n ++ l) = some (n, l) := by
  simp only [encodeU32, List.cons_append, List.nil_append, readU32,
    Option.some.injEq, Prod.mk.injEq, and_true]
  omega

theorem readNullTerminatedString_append {s : List Nat}
    (h : ∀ b ∈ s, b ≠ 0) (l : List Nat) :
    readNullTerminatedString (s ++ 0 :: l) = some (s, l) := by
  induction s with
  | nil => simp [readNullTerminatedString]
  | cons b rest ih =>
    have hb : b ≠ 0 := h b (List.mem_cons_self b rest)
    simp only [List.cons_append, readNullTerminatedString, hb, if_false,
      List.append_eq, ih (fun x hx => h x (List.mem_cons_of_mem _ hx))]

theorem decodeFields_encode {r : RawRecord} (h : r.WF) (rest : List Nat) :
    decodeFields r.id (encodeRecordTail r ++ rest)
      = .ok (r.toWorld, rest) := by
  have h' := h
  unfold RawRecord.WF at h'
  obtain ⟨_, _, h3, h4, h5, _, h7⟩ := h'
  simp only [decodeFields, encodeRecordTail, List.append_assoc,
    List.cons_append, List.singleton_append, List.nil_append,
    List.append_eq, readU32_encodeU32 h3,
    readNullTerminatedString_append (fun b hb => (h4 b hb).2),
    readNullTerminatedString_append (fun b hb => (h5 b hb).2),
    readU8, readU16_encodeU16 h7]
  rfl

theorem encodeRecord_length (r : RawRecord) :
    (encodeRecord r).length = 11 + r.address.length + r.activity.length := by
  simp [encodeRecord, encodeRecordTail, encodeU16, encodeU32]
  omega

theorem decodeLoop_step {r : RawRecord} (h : r.WF) (p : Bool)
    (fuel i : Nat) (rest : List Nat) (acc : List World) :
    decodeLoop p (fuel + 1) i (encodeRecord r ++ rest) acc
      = decodeLoop p fuel (i + 1) rest (r.toWorld :: acc) := by
  have h' := h
  unfold RawRecord.WF at h'
  obtain ⟨h1, h2, _, _, _, _, _⟩ := h'
  have hlen : ¬ ((encodeRecord r ++ rest).length < 11) := by
    rw [List.length_append, encodeRecord_length]; omega
  have hid : readU16 (encodeRecord r ++ rest)
      = some (r.id, encodeRecordTail r ++ rest) := by
    rw [encodeRecord, List.append_assoc]
    exact readU16_encodeU16 (by omega) _
  have hvalid : validWorldID r.id = true := by
    simp only [validWorldID, Bool.and_eq_true, decide_eq_true_eq]
    exact ⟨h1, h2⟩
  simp only [decodeLoop, hlen, if_false, hid, hvalid, if_true,
    decodeFields_encode h]

theorem decodeLoop_records (rs : List RawRecord) :
    ∀ (p : Bool) (fuel i : Nat) (tail : List Nat) (acc : List World),
    (∀ r ∈ rs, r.WF) →
    decodeLoop p (rs.length + fuel) i (encodeRecords rs ++ tail) acc
      = decodeLoop p fuel (i + rs.length) tail
          ((rs.map RawRecord.toWorld).reverse ++ acc) := by
  induction rs with
  | nil => intro p fuel i tail acc _; simp [encodeRecords]
  | cons r rest ih =>
    intro p fuel i tail acc hwf
    have hr : r.WF := hwf r (List.mem_cons_self r rest)
    have hstep := decodeLoop_step hr p (rest.length + fuel) i
      (encodeRecords rest ++ tail) acc
    calc decodeLoop p ((r :: rest).length + fuel) i
          (encodeRecords (r :: rest) ++ tail) acc
        = decodeLoop p (rest.length + fuel + 1) i
            (encodeRecord r ++ (encodeRecords rest ++ tail)) acc := by
          simp only [encodeRecords, List.length_cons, List.append_assoc]
          ring_nf
      _ = decodeLoop p (rest.length + fuel) (i + 1)
            (encodeRecords rest ++ tail) (r.toWorld :: acc) := hstep
      _ = decodeLoop p fuel (i + 1 + rest.length) tail
            ((rest.map RawRecord.toWorld).reverse ++ (r.toWorld :: acc)) :=
          ih p fuel (i + 1) tail (r.toWorld :: acc)
            (fun x hx => hwf x (List.mem_cons_of_mem _ hx))
      _ = decodeLoop p fuel (i + (r :: rest).length) tail
            (((r :: rest).map RawRecord.toWorld).reverse ++ acc) := by
          simp only [List.length_cons, List.map_cons, List.reverse_cons,
            List.append_assoc, List.singleton_append]
          ring_nf

theorem decodeLoop_stop {rem : List Nat} (h : rem.length < 11) (p : Bool)
    (m i : Nat) (acc : List World) :
    decodeLoop p m i rem acc = .ok acc.reverse := by
  cases m with
  | zero => rfl
  | succ m => simp [decodeLoop, h]

theorem decodeLoop_stopBad {rem : List Nat} {id : Nat} {r1 : List Nat}
    (hr : readU16 rem = some (id, r1)) (hbad : validWorldID id = false)
    (p : Bool) {i : Nat} (hi : ¬ (i = 0 ∧ p = true)) (m : Nat)
    (acc : List World) :
    decodeLoop p m i rem acc = .ok acc.reverse := by
  cases m with
  | zero => rfl
  | succ m =>
    by_cases hlen : rem.length < 11
    · simp [decodeLoop, hlen]
    · simp [decodeLoop, hlen, hr, hbad, hi]

theorem decodeWorldData_validCount (b0 b1 b2 b3 : Nat) {N : Nat}
    (h1 : 1 ≤ N) (h2 : N ≤ 200) (body : List Nat) :
    decodeWorldData (b0 :: b1 :: b2 :: b3 :: encodeU16 N ++ body)
      = decodeLoop false N 0 body [] := by
  have he : encodeU16 N = [N, 0] := by
    simp only [encodeU16, List.cons.injEq, and_true]
    constructor <;> omega
  have hn : toInt16 (N + 256 * 0) = (N : Int) := by
    rw [Nat.mul_zero, Nat.add_zero]; exact toInt16_small (by omega)
  rw [he]
  simp only [List.cons_append, List.nil_append, decodeWorldData, hn]
  have hcond : ¬ ((N : Int) ≤ 0 ∨ 200 < (N : Int)) := by omega
  rw [if_neg hcond]
  norm_num

theorem decodeWorldData_invalidCount (b0 b1 b2 b3 c0 c1 : Nat)
    (h : toInt16 (c0 + 256 * c1) ≤ 0 ∨ 200 < toInt16 (c0 + 256 * c1))
    (body : List Nat) :
    decodeWorldData (b0 :: b1 :: b2 :: b3 :: c0 :: c1 :: body)
      = decodeLoop true 300 0 body [] := by
  simp only [decodeWorldData]
  rw [if_pos h]

theorem decodeLoop_length {p : Bool} :
    ∀ (fuel : Nat) {i : Nat} {rem : List Nat} {acc ws : List World},
    decodeLoop p fuel i rem acc = .ok ws → ws.length ≤ acc.length + fuel := by
  intro fuel
  induction fuel with
  | zero =>
    intro i rem acc ws h
    simp only [decodeLoop, Except.ok.injEq] at h
    simp [← h]
  | succ fuel ih =>
    intro i rem acc ws h
    simp only [decodeLoop] at h
    all_goals try split at h
    all_goals try split at h
    all_goals try split at h
    all_goals try split at h
    all_goals try split at h
    all_goals try split at h
    all_goals try (have hih := ih h; simp only [List.length_cons] at hih; omega)
    all_goals try (simp only [Except.ok.injEq] at h; subst h; simp only [List.length_reverse, List.length_nil]; omega)
    all_goals simp at h

theorem readU16_of_length {l : List Nat} (h : 2 ≤ l.length) :
    ∃ v r, readU16 l = some (v, r) := by
  match l with
  | a :: b :: rest => exact ⟨a + 256 * b, rest, rfl⟩
  | [] => simp at h
  | [a] => simp at h

theorem scanLoop_found {snap : List Nat} {j idj : Nat} {rest : List Nat}
    (hj : j < 20)
    (hread : readU16 (List.drop j snap) = some (idj, rest))
    (hvalid : validWorldID idj = true)
    (hbad : ∀ k v r, 1 ≤ k → k < j →
      readU16 (List.drop k snap) = some (v, r) → validWorldID v = false)
    (hlen : j + 2 ≤ snap.length) :
    ∀ fuel off curLen, 1 ≤ off → off ≤ j → off + fuel = 20 → 2 ≤ curLen →
    scanLoop snap off curLen fuel = some (idj, rest) := by
  intro fuel
  induction fuel with
  | zero => intro off curLen h1 h2 h3 h4; omega
  | succ fuel ih =>
    intro off curLen h1 h2 h3 h4
    by_cases hoj : off = j
    · subst hoj
      simp only [scanLoop, if_pos h4, hread, hvalid, if_true]
    · have hof : off < j := lt_of_le_of_ne h2 hoj
      obtain ⟨v, r, hvr⟩ := readU16_of_length
        (l := snap.drop off) (by rw [List.length_drop]; omega)
      have hb := hbad off v r h1 hof hvr
      simp only [scanLoop, if_pos h4, hvr, hb]
      rw [if_neg (by simp)]
      exact ih (off + 1) (snap.drop off).length (by omega) (by omega)
        (by omega) (by rw [List.length_drop]; omega)

theorem scanLoop_none {snap : List Nat}
    (hbad : ∀ k v r, 1 ≤ k → k < 20 →
      readU16 (List.drop k snap) = some (v, r) → validWorldID v = false) :
    ∀ fuel off curLen, 1 ≤ off → off + fuel = 20 →
    scanLoop snap off curLen fuel = none := by
  intro fuel
  induction fuel with
  | zero => intro off curLen _ _; rfl
  | succ fuel ih =>
    intro off curLen h1 h2
    by_cases h4 : 2 ≤ curLen
    · match hvr : readU16 (snap.drop off) with
      | none => simp only [scanLoop, if_pos h4, hvr]
      | some (v, r) =>
        have hb := hbad off v r h1 (by omega) hvr
        simp only [scanLoop, if_pos h4, hvr, hb]
        rw [if_neg (by simp)]
        exact ih (off + 1) (snap.drop off).length (by omega) (by omega)
    · simp only [scanLoop, if_neg h4]

theorem encodeRecords_cons (r : RawRecord) (rs : List RawRecord) :
    encodeRecords (r :: rs) = encodeRecord r ++ encodeRecords rs := rfl

theorem decodeLoop_realign_found {junk : List Nat} {r : RawRecord}
    {rs : List RawRecord} {tail : List Nat} {fuel : Nat}
    (hwf : ∀ x ∈ r :: rs, RawRecord.WF x)
    (hj1 : 1 ≤ junk.length) (hj19 : junk.length ≤ 19)
    (hbad : ∀ k v rst, k < junk.length →
      readU16 (List.drop k (junk ++ (encodeRecords (r :: rs) ++ tail)))
        = some (v, rst) → validWorldID v = false)
    (hrs : rs.length ≤ fuel) (htail : tail.length < 11) :
    decodeLoop true (fuel + 1) 0 (junk ++ (encodeRecords (r :: rs) ++ tail))
      [] = .ok ((r :: rs).map RawRecord.toWorld) := by
  have hwfr : r.WF := hwf r (List.mem_cons_self r rs)
  have hwfr' := hwfr
  unfold RawRecord.WF at hwfr'
  obtain ⟨hid1, hid2, _, _, _, _, _⟩ := hwfr'
  have hbl : (junk ++ (encodeRecords (r :: rs) ++ tail)).length
      = junk.length + ((encodeRecord r).length
        + ((encodeRecords rs).length + tail.length)) := by
    simp [encodeRecords_cons, List.length_append]
  have hrl := encodeRecord_length r
  have hdropj : List.drop junk.length
      (junk ++ (encodeRecords (r :: rs) ++ tail))
      = encodeRecord r ++ (encodeRecords rs ++ tail) := by
    rw [List.drop_left, encodeRecords_cons, List.append_assoc]
  have hreadj : readU16 (List.drop junk.length
      (junk ++ (encodeRecords (r :: rs) ++ tail)))
      = some (r.id, encodeRecordTail r ++ (encodeRecords rs ++ tail)) := by
    rw [hdropj, encodeRecord, List.append_assoc]
    exact readU16_encodeU16 (by omega) _
  have hvalidr : validWorldID r.id = true := by
    simp only [validWorldID, Bool.and_eq_true, decide_eq_true_eq]
    exact ⟨hid1, hid2⟩
  obtain ⟨v0, r0, hv0⟩ := readU16_of_length
    (l := junk ++ (encodeRecords (r :: rs) ++ tail)) (by omega)
  have hbad0 : validWorldID v0 = false :=
    hbad 0 v0 r0 (by omega) (by simpa using hv0)
  have hscan : scanLoop (junk ++ (encodeRecords (r :: rs) ++ tail)) 1
      ((junk ++ (encodeRecords (r :: rs) ++ tail)).length - 2) 19
      = some (r.id, encodeRecordTail r ++ (encodeRecords rs ++ tail)) :=
    scanLoop_found (by omega) hreadj hvalidr
      (fun k v rr hk1 hkj hr => hbad k v rr (by omega) hr)
      (by omega) 19 1 _ (by omega) (by omega) (by omega) (by omega)
  have hnl : ¬ (junk ++ (encodeRecords (r :: rs) ++ tail)).length < 11 := by
    omega
  simp only [decodeLoop, if_neg hnl, hv0]
  rw [if_neg (by simp [hbad0])]
  rw [if_pos (⟨trivial, trivial⟩ : True ∧ True)]
  simp only [hscan, decodeFields_encode hwfr]
  have hsplit : fuel = rs.length + (fuel - rs.length) := by omega
  rw [hsplit, decodeLoop_records rs true (fuel - rs.length) 1 tail
    [r.toWorld] (fun x hx => hwf x (List.mem_cons_of_mem _ hx)),
    decodeLoop_stop htail]
  simp

theorem decodeLoop_realign_none {body : List Nat} {fuel : Nat}
    (hlen : 11 ≤ body.length)
    (hbad : ∀ k v rst, k < 20 →
      readU16 (List.drop k body) = some (v, rst) → validWorldID v = false) :
    decodeLoop true (fuel + 1) 0 body [] = .ok [] := by
  obtain ⟨v0, r0, hv0⟩ := readU16_of_length (l := body) (by omega)
  have hbad0 : validWorldID v0 = false :=
    hbad 0 v0 r0 (by omega) (by simpa using hv0)
  have hscan : scanLoop body 1 (body.length - 2) 19 = none :=
    scanLoop_none (fun k v rr h1 h2 hr => hbad k v rr (by omega) hr)
      19 1 _ (by omega) (by omega)
  have hnl : ¬ body.length < 11 := by omega
  simp only [decodeLoop, if_neg hnl, hv0]
  rw [if_neg (by simp [hbad0])]
  rw [if_pos (⟨trivial, trivial⟩ : True ∧ True)]
  simp only [hscan]

/-! ## Claim theorems -/

/-- C6: for every well-formed payload with a valid declared count N
(between 1 and 200) followed by N complete records whose ids all lie in
the valid id range, decode returns exactly N records whose id, type
flags, address, activity, location and player count match the
corresponding input bytes. -/
theorem c6_wellformed_payload (b0 b1 b2 b3 : Nat) (rs : List RawRecord)
    (hwf : ∀ r ∈ rs, r.WF) (h1 : 1 ≤ rs.length) (h2 : rs.length ≤ 200) :
    decodeWorldData (b0 :: b1 :: b2 :: b3 ::
        encodeU16 rs.length ++ encodeRecords rs)
      = .ok (rs.map RawRecord.toWorld) := by
  rw [decodeWorldData_validCount b0 b1 b2 b3 h1 h2]
  calc decodeLoop false rs.length 0 (encodeRecords rs) []
      = decodeLoop false (rs.length + 0) 0 (encodeRecords rs ++ []) [] := by
        simp
    _ = decodeLoop false 0 (0 + rs.length) []
          ((rs.map RawRecord.toWorld).reverse ++ []) :=
        decodeLoop_records rs false 0 0 [] [] hwf
    _ = .ok (rs.map RawRecord.toWorld) := by
        simp [decodeLoop]

/-- Witness for C6 at a concrete one-record payload. -/
theorem c6_wellformed_payload_witness :
    decodeWorldData (0 :: 0 :: 0 :: 0 :: encodeU16 1
        ++ encodeRecords [⟨300, 260, [119], [102], 0, 500⟩])
      = .ok ([⟨300, 260, [119], [102], 0, 500⟩].map RawRecord.toWorld) :=
  c6_wellformed_payload 0 0 0 0 [⟨300, 260, [119], [102], 0, 500⟩]
    (by intro r hr; simp at hr; subst hr; simp [RawRecord.WF])
    (by decide) (by decide)

/-- C1 counterexample: a payload with a valid header, one complete record
and a mid-record cut that leaves 11 or more bytes (the cut falls inside
the address string, whose null terminator is missing) makes decode raise
a hard error and lose the complete record, instead of returning it with
a truncation mark. The cut piece is a strict initial segment of a full
record. -/
theorem c1_counterexample :
    decodeWorldData ([0, 0, 0, 0] ++ encodeU16 2
        ++ encodeRecord ⟨300, 0, [], [], 0, 0⟩
        ++ (encodeRecord ⟨300, 0, [65, 65, 65, 65, 65, 65], [], 0, 0⟩).take 11)
      = .error "failed to read address" ∧
    ((encodeRecord ⟨300, 0, [65, 65, 65, 65, 65, 65], [], 0, 0⟩).take 11).length
      < (encodeRecord ⟨300, 0, [65, 65, 65, 65, 65, 65], [], 0, 0⟩).length :=
  ⟨rfl, by decide⟩

/-- C1 (amended): for a payload cut mid-record after k complete records
(valid count N with k < N <= 200), decode returns exactly the k complete
records without raising an error provided the cut leaves fewer than 11
bytes of the last, incomplete record; when 11 or more bytes remain the
decoder instead fails with a hard error (see the counterexample), and
truncation is observable only as a shorter list, there is no flag. -/
theorem c1_truncated_midrecord (b0 b1 b2 b3 : Nat) (rs : List RawRecord)
    (cutRec : RawRecord) (m N : Nat) (hwf : ∀ r ∈ rs, r.WF)
    (hk : 1 ≤ rs.length) (hN1 : rs.length < N) (hN2 : N ≤ 200)
    (hm : ((encodeRecord cutRec).take m).length < 11) :
    decodeWorldData (b0 :: b1 :: b2 :: b3 :: encodeU16 N
        ++ (encodeRecords rs ++ (encodeRecord cutRec).take m))
      = .ok (rs.map RawRecord.toWorld) := by
  rw [decodeWorldData_validCount b0 b1 b2 b3 (by omega) hN2]
  have hsplit : N = rs.length + (N - rs.length) := by omega
  rw [hsplit, decodeLoop_records rs false (N - rs.length) 0 _ [] hwf,
    decodeLoop_stop hm]
  simp

/-- Witness for C1 (amended): one complete record, declared count 2, cut
after 5 bytes of the second record. -/
theorem c1_truncated_midrecord_witness :
    decodeWorldData (0 :: 0 :: 0 :: 0 :: encodeU16 2
        ++ (encodeRecords [⟨300, 0, [], [], 0, 0⟩]
            ++ (encodeRecord ⟨305, 0, [65], [], 0, 0⟩).take 5))
      = .ok ([⟨300, 0, [], [], 0, 0⟩].map RawRecord.toWorld) :=
  c1_truncated_midrecord 0 0 0 0 [⟨300, 0, [], [], 0, 0⟩]
    ⟨305, 0, [65], [], 0, 0⟩ 5 2
    (by intro r hr; simp at hr; subst hr; simp [RawRecord.WF])
    (by decide) (by decide) (by decide) (by decide)

/-- C3: for every payload whose declared record count is <= 0 or greater
than 200, decode switches to iterative mode: it keeps decoding records
until fewer than 11 bytes (the minimum for one more record) remain, the
end of the buffer is reached, or a decoded world id falls outside the
valid id range, in which case all previously decoded records are
returned; and no decode outcome ever holds more than 300 records, the
cap on iteration attempts. -/
theorem c3_iterative_mode :
    (∀ (b0 b1 b2 b3 c0 c1 : Nat) (rs : List RawRecord) (tail : List Nat),
      (toInt16 (c0 + 256 * c1) ≤ 0 ∨ 200 < toInt16 (c0 + 256 * c1)) →
      (∀ r ∈ rs, r.WF) → rs.length ≤ 299 →
      (tail.length < 11 ∨ (1 ≤ rs.length ∧
        ∃ id rst, readU16 tail = some (id, rst) ∧ validWorldID id = false)) →
      decodeWorldData (b0 :: b1 :: b2 :: b3 :: c0 :: c1 ::
          (encodeRecords rs ++ tail)) = .ok (rs.map RawRecord.toWorld)) ∧
    (∀ (data : List Nat) (ws : List World),
      decodeWorldData data = .ok ws → ws.length ≤ 300) := by
  constructor
  · intro b0 b1 b2 b3 c0 c1 rs tail hcount hwf hlen hstop
    rw [decodeWorldData_invalidCount b0 b1 b2 b3 c0 c1 hcount]
    have hsplit : (300:Nat) = rs.length + (300 - rs.length) := by omega
    rw [hsplit, decodeLoop_records rs true (300 - rs.length) 0 tail [] hwf]
    rcases hstop with hshort | ⟨hk, id, rst, hread, hbad⟩
    · rw [decodeLoop_stop hshort]; simp
    · rw [decodeLoop_stopBad hread hbad true
        (fun hc => absurd hc.1 (by omega))]
      simp
  · intro data ws h
    match data with
    | [] => simp [decodeWorldData] at h
    | [a] => simp [decodeWorldData] at h
    | [a, b] => simp [decodeWorldData] at h
    | [a, b, c] => simp [decodeWorldData] at h
    | [a, b, c, d] => simp [decodeWorldData] at h
    | [a, b, c, d, e] => simp [decodeWorldData] at h
    | b0 :: b1 :: b2 :: b3 :: c0 :: c1 :: rest =>
      simp only [decodeWorldData] at h
      by_cases hc : toInt16 (c0 + 256 * c1) ≤ 0 ∨ 200 < toInt16 (c0 + 256 * c1)
      · rw [if_pos hc] at h
        have := decodeLoop_length 300 h
        simpa using this
      · rw [if_neg hc] at h
        have hlen := decodeLoop_length _ h
        have hle : (toInt16 (c0 + 256 * c1)).toNat ≤ 200 := by
          push_neg at hc
          omega
        simp only [List.length_nil, Nat.zero_add] at hlen
        omega

/-- Witness for C3: a count of 0 (iterative mode), one record, then a
block of garbage whose first two bytes read as an out-of-range id. -/
theorem c3_iterative_mode_witness :
    decodeWorldData (0 :: 0 :: 0 :: 0 :: 0 :: 0 ::
        (encodeRecords [⟨300, 0, [], [], 0, 0⟩]
          ++ [9, 9, 9, 9, 9, 9, 9, 9, 9, 9, 9, 9]))
      = .ok ([⟨300, 0, [], [], 0, 0⟩].map RawRecord.toWorld) ∧
    ([⟨300, 0, [], [], 0, 0⟩].map RawRecord.toWorld).length ≤ 300 := by
  have h1 := c3_iterative_mode.1 0 0 0 0 0 0 [⟨300, 0, [], [], 0, 0⟩]
    [9, 9, 9, 9, 9, 9, 9, 9, 9, 9, 9, 9]
    (by decide)
    (by intro r hr; simp at hr; subst hr; simp [RawRecord.WF])
    (by decide)
    (Or.inr ⟨by decide, 2313, [9, 9, 9, 9, 9, 9, 9, 9, 9, 9], by decide, by decide⟩)
  exact ⟨h1, c3_iterative_mode.2 _ _ h1⟩

/-- C4: in iterative mode, when the very first record yields an
out-of-range id, decode scans forward byte-by-byte within a window of 20
bytes (offsets 1 to 19), re-reading a candidate 2-byte id at each
offset, and resumes decoding from the first offset whose id is in the
valid range; when no offset in the window yields a valid id, decode
returns an empty record list without raising an error. -/
theorem c4_realignment :
    (∀ (b0 b1 b2 b3 c0 c1 : Nat) (junk : List Nat) (r : RawRecord)
       (rs : List RawRecord) (tail : List Nat),
      (toInt16 (c0 + 256 * c1) ≤ 0 ∨ 200 < toInt16 (c0 + 256 * c1)) →
      (∀ x ∈ r :: rs, RawRecord.WF x) →
      1 ≤ junk.length → junk.length ≤ 19 →
      (∀ k v rst, k < junk.length →
        readU16 (List.drop k (junk ++ (encodeRecords (r :: rs) ++ tail)))
          = some (v, rst) → validWorldID v = false) →
      rs.length ≤ 299 → tail.length < 11 →
      decodeWorldData (b0 :: b1 :: b2 :: b3 :: c0 :: c1 ::
          (junk ++ (encodeRecords (r :: rs) ++ tail)))
        = .ok ((r :: rs).map RawRecord.toWorld)) ∧
    (∀ (b0 b1 b2 b3 c0 c1 : Nat) (body : List Nat),
      (toInt16 (c0 + 256 * c1) ≤ 0 ∨ 200 < toInt16 (c0 + 256 * c1)) →
      11 ≤ body.length →
      (∀ k v rst, k < 20 → readU16 (List.drop k body) = some (v, rst) →
        validWorldID v = false) →
      decodeWorldData (b0 :: b1 :: b2 :: b3 :: c0 :: c1 :: body)
        = .ok []) := by
  constructor
  · intro b0 b1 b2 b3 c0 c1 junk r rs tail hcount hwf hj1 hj19 hbad hrs htail
    rw [decodeWorldData_invalidCount b0 b1 b2 b3 c0 c1 hcount,
      show (300:Nat) = 299 + 1 from rfl]
    exact decodeLoop_realign_found hwf hj1 hj19 hbad hrs htail
  · intro b0 b1 b2 b3 c0 c1 body hcount hlen hbad
    rw [decodeWorldData_invalidCount b0 b1 b2 b3 c0 c1 hcount,
      show (300:Nat) = 299 + 1 from rfl]
    exact decodeLoop_realign_none hlen hbad

/-- Witness for C4: part one on a payload with one junk byte before a
valid record (realignment at offset 1), part two on an 11-byte body of
garbage with no valid alignment. -/
theorem c4_realignment_witness :
    decodeWorldData (0 :: 0 :: 0 :: 0 :: 0 :: 0 ::
        ([7] ++ (encodeRecords [⟨300, 0, [], [], 0, 0⟩] ++ [])))
      = .ok ([⟨300, 0, [], [], 0, 0⟩].map RawRecord.toWorld) ∧
    decodeWorldData (0 :: 0 :: 0 :: 0 :: 0 :: 0 ::
        [9, 9, 9, 9, 9, 9, 9, 9, 9, 9, 9])
      = .ok [] := by
  constructor
  · exact c4_realignment.1 0 0 0 0 0 0 [7] ⟨300, 0, [], [], 0, 0⟩ [] []
      (by decide)
      (by intro x hx; simp at hx; subst hx; simp [RawRecord.WF])
      (by decide) (by decide)
      (by intro k v rst hk hr
          have hk0 : k = 0 := by simpa using hk
          subst hk0
          simp [encodeRecords, encodeRecord, encodeRecordTail, encodeU16,
            encodeU32, readU16] at hr
          rcases hr with ⟨hv, _⟩
          subst hv
          decide)
      (by decide) (by decide)
  · exact c4_realignment.2 0 0 0 0 0 0 [9, 9, 9, 9, 9, 9, 9, 9, 9, 9, 9]
      (by decide) (by decide)
      (by intro k v rst hk hr
          interval_cases k <;>
            simp [readU16] at hr <;>
            (rcases hr with ⟨hv, _⟩; subst hv; decide))

/-- C2 (code evaluation at the failing input): a record whose type flags
set both PVP (bit 2) and quest-speedrun (bit 8), flags = 260, is parsed
into the flag list [PVP, QuestSpeedrunning] in bit order; the code's
World.WorldType then reports PVP, while the fixed priority list of the
spec (and of the comment above the switch) requires QuestSpeedrunning.
The switch sits inside a loop over the parsed flags, so the first flag
in bit-parse order wins, not the highest-priority one. -/
theorem c2_priority_divergence :
    parseWorldTypes 260 = [WorldType.pvp, WorldType.questSpeedrunning] ∧
    World.worldType
        ⟨302, parseWorldTypes 260, [], [], WorldLocation.uk, 0⟩
      = WorldType.pvp ∧
    specWorldType (parseWorldTypes 260) = WorldType.questSpeedrunning ∧
    WorldType.pvp ≠ WorldType.questSpeedrunning := by
  refine ⟨by decide, by decide, by decide, by decide⟩

/-! ## Rate limiter lemmas -/

theorem backoffLoop_min (n : Nat) : ∀ m : Nat,
    initialBackoff * 2 ^ m ≤ maxBackoff →
    backoffLoop (initialBackoff * 2 ^ m) n
      = min (initialBackoff * 2 ^ (m + n)) maxBackoff := by
  have hmono : ∀ a b : Nat, a ≤ b →
      initialBackoff * 2 ^ a ≤ initialBackoff * 2 ^ b := fun a b hab =>
    Nat.mul_le_mul (Nat.le_refl _) (Nat.pow_le_pow_right (by omega) hab)
  induction n with
  | zero =>
    intro m h
    simp only [backoffLoop, Nat.add_zero]
    exact (Nat.min_eq_left h).symm
  | succ n ih =>
    intro m h
    simp only [backoffLoop]
    by_cases hlt : initialBackoff * 2 ^ m < maxBackoff
    · rw [if_pos hlt]
      have h2 : initialBackoff * 2 ^ m * 2 = initialBackoff * 2 ^ (m + 1) := by
        ring
      by_cases hover : maxBackoff < initialBackoff * 2 ^ m * 2
      · rw [if_pos hover]
        have hge : maxBackoff ≤ initialBackoff * 2 ^ (m + (n + 1)) :=
          le_trans (le_of_lt (h2 ▸ hover)) (hmono (m + 1) (m + (n + 1)) (by omega))
        exact (Nat.min_eq_right hge).symm
      · rw [if_neg hover]
        push_neg at hover
        rw [h2, ih (m + 1) (h2 ▸ hover),
          show m + 1 + n = m + (n + 1) from by omega]
    · rw [if_neg hlt]
      push_neg at hlt
      have heq : initialBackoff * 2 ^ m = maxBackoff := le_antisymm h hlt
      have hge : maxBackoff ≤ initialBackoff * 2 ^ (m + (n + 1)) :=
        heq ▸ hmono m (m + (n + 1)) (by omega)
      rw [heq]
      exact (Nat.min_eq_right hge).symm

theorem recordMany_append_one (ts : List Nat) (t : Nat)
    (s : RateLimitState) :
    recordMany (ts ++ [t]) s = record403 t (recordMany ts s) := by
  simp [recordMany, List.foldl_append]

theorem recordMany_consec (ts : List Nat) : ∀ s : RateLimitState,
    (recordMany ts s).consecutive403 = s.consecutive403 + ts.length := by
  induction ts with
  | nil => intro s; simp [recordMany]
  | cons t ts ih =>
    intro s
    have : recordMany (t :: ts) s = recordMany ts (record403 t s) := by
      simp [recordMany]
    rw [this, ih]
    simp [record403]
    omega

/-- C5: after the k-th consecutive Record403 call (the last at time t),
the coordinator is blocked with blockedUntil = t + min(1 hour * 2^(k-1),
24 hours); CheckAndBlock returns true at every time strictly before
blockedUntil, and false once blockedUntil has been reached, clearing the
blocked state. Here k = ts.length + 1 and the exponent is k - 1. -/
theorem c5_exponential_backoff (ts : List Nat) (t : Nat) :
    (recordMany (ts ++ [t]) initialRateLimitState).isRateLimited = true ∧
    (recordMany (ts ++ [t]) initialRateLimitState).blockedUntil
      = t + min (initialBackoff * 2 ^ ts.length) maxBackoff ∧
    (∀ u, u < (recordMany (ts ++ [t]) initialRateLimitState).blockedUntil →
      (checkAndBlock u (recordMany (ts ++ [t]) initialRateLimitState)).1
        = true) ∧
    (∀ u, (recordMany (ts ++ [t]) initialRateLimitState).blockedUntil ≤ u →
      (checkAndBlock u (recordMany (ts ++ [t]) initialRateLimitState)).1
          = false ∧
      (checkAndBlock u
          (recordMany (ts ++ [t]) initialRateLimitState)).2.isRateLimited
          = false) := by
  have hc : (recordMany ts initialRateLimitState).consecutive403
      = ts.length := by
    rw [recordMany_consec]
    simp [initialRateLimitState]
  rw [recordMany_append_one]
  have hbu : (record403 t (recordMany ts initialRateLimitState)).blockedUntil
      = t + min (initialBackoff * 2 ^ ts.length) maxBackoff := by
    simp only [record403, hc, Nat.add_sub_cancel]
    have hone : initialBackoff * 2 ^ 0 = initialBackoff := by simp
    have := backoffLoop_min ts.length 0
      (by rw [hone]; simp [initialBackoff, maxBackoff]; omega)
    rw [hone] at this
    rw [this]
    simp
  refine ⟨rfl, hbu, ?_, ?_⟩
  · intro u hu
    simp only [checkAndBlock]
    rw [if_neg (by simp [record403]), if_pos hu]
  · intro u hu
    have hnot : ¬ u < (record403 t
        (recordMany ts initialRateLimitState)).blockedUntil := by omega
    simp only [checkAndBlock]
    rw [if_neg (by simp [record403]), if_neg hnot]
    exact ⟨rfl, rfl⟩

/-- Witness for C5: one rejection at time 0 yields exactly a 1-hour
window, blocked one nanosecond before it ends and clear at its end. -/
theorem c5_exponential_backoff_witness :
    (recordMany ([] ++ [0]) initialRateLimitState).isRateLimited = true ∧
    (recordMany ([] ++ [0]) initialRateLimitState).blockedUntil
      = 3600000000000 ∧
    (checkAndBlock 3599999999999
      (recordMany ([] ++ [0]) initialRateLimitState)).1 = true ∧
    (checkAndBlock 3600000000000
      (recordMany ([] ++ [0]) initialRateLimitState)).1 = false := by
  have h := c5_exponential_backoff [] 0
  refine ⟨h.1, ?_, ?_, ?_⟩
  · rw [h.2.1]; decide
  · exact h.2.2.1 _ (by rw [h.2.1]; decide)
  · exact (h.2.2.2 _ (by rw [h.2.1]; decide)).1

/-- C7 (amended): with a previously stored playtime, the activity
classification is active exactly when the current playtime is strictly
greater; with no previous value the function returns true, so a fetch is
required — but this first-observation state is indistinguishable from a
confirmed-active one downstream: the achievement cache write takes
exactly the active-TTL branch for it. -/
theorem c7_activity_rule (prev cur : Int) (f : Nat → Nat) (k : Nat) :
    (hasPlaytimeIncreased (some prev) cur = true ↔ prev < cur) ∧
    hasPlaytimeIncreased none cur = true ∧
    achievementCacheTTL (hasPlaytimeIncreased none cur) f k
      = achievementCacheTTL true f k := by
  refine ⟨?_, rfl, rfl⟩
  simp [hasPlaytimeIncreased]

/-- C7 counterexample: an entity with no previous value is treated
exactly like a confirmed-active one (previous 50, current 100): the same
classification value and the same active 2-minute-base TTL, so the
first-observation state is conflated with confirmed active. -/
theorem c7_counterexample :
    hasPlaytimeIncreased none 100 = hasPlaytimeIncreased (some 50) 100 ∧
    (achievementCacheTTL (hasPlaytimeIncreased none 100) (fun _ => 0) 0).1
      = (achievementCacheTTL (hasPlaytimeIncreased (some 50) 100)
          (fun _ => 0) 0).1 ∧
    (achievementCacheTTL (hasPlaytimeIncreased none 100) (fun _ => 0) 0).1
      = 2 * minuteNs := ⟨rfl, rfl, rfl⟩

/-- C8: every achievement cache write chooses a TTL in [2 min, 5 min]
when the entity is classified active (counter increased) and in
[4 h, 6 h] when classified inactive; each write consumes exactly one
fresh random draw, so the jitter of consecutive writes comes from
successive positions of the random stream and is never reused. -/
theorem c8_ttl_bounds (prev cur : Int) (f : Nat → Nat) (k : Nat) :
    (prev < cur →
      2 * minuteNs ≤ (achievementCacheTTL
          (hasPlaytimeIncreased (some prev) cur) f k).1 ∧
      (achievementCacheTTL (hasPlaytimeIncreased (some prev) cur) f k).1
        ≤ 5 * minuteNs) ∧
    (cur ≤ prev →
      4 * hourNs ≤ (achievementCacheTTL
          (hasPlaytimeIncreased (some prev) cur) f k).1 ∧
      (achievementCacheTTL (hasPlaytimeIncreased (some prev) cur) f k).1
        ≤ 6 * hourNs) ∧
    (∀ b : Bool, (achievementCacheTTL b f k).2 = k + 1) ∧
    (∀ b1 b2 : Bool,
      (achievementCacheTTL b2 f (achievementCacheTTL b1 f k).2).2
        = k + 2) := by
  have h180 : f k % 180 < 180 := Nat.mod_lt _ (by omega)
  have h120 : f k % 120 < 120 := Nat.mod_lt _ (by omega)
  refine ⟨?_, ?_, ?_, ?_⟩
  · intro h
    have hact : hasPlaytimeIncreased (some prev) cur = true := by
      simp [hasPlaytimeIncreased, h]
    rw [hact]
    simp only [achievementCacheTTL, randIntn, if_true]
    constructor
    · simp
    · simp only [minuteNs, secondNs]
      omega
  · intro h
    have hact : hasPlaytimeIncreased (some prev) cur = false := by
      simp [hasPlaytimeIncreased]
      omega
    rw [hact]
    simp only [achievementCacheTTL, randIntn, Bool.false_eq_true, if_false]
    constructor
    · simp
    · simp only [hourNs, minuteNs, secondNs]
      omega
  · intro b
    cases b <;> simp [achievementCacheTTL, randIntn]
  · intro b1 b2
    cases b1 <;> cases b2 <;> simp [achievementCacheTTL, randIntn]

/-- Witness for C8 at the spec's own test values: previous counter 100
and current 150 give a TTL in the active band, previous 150 and current
150 give a TTL in the inactive band. -/
theorem c8_ttl_bounds_witness :
    (2 * minuteNs ≤ (achievementCacheTTL
        (hasPlaytimeIncreased (some 100) 150) (fun _ => 7) 0).1 ∧
      (achievementCacheTTL (hasPlaytimeIncreased (some 100) 150)
        (fun _ => 7) 0).1 ≤ 5 * minuteNs) ∧
    (4 * hourNs ≤ (achievementCacheTTL
        (hasPlaytimeIncreased (some 150) 150) (fun _ => 7) 0).1 ∧
      (achievementCacheTTL (hasPlaytimeIncreased (some 150) 150)
        (fun _ => 7) 0).1 ≤ 6 * hourNs) :=
  ⟨(c8_ttl_bounds 100 150 (fun _ => 7) 0).1 (by decide),
   (c8_ttl_bounds 150 150 (fun _ => 7) 0).2.1 (by decide)⟩

/-- C9: for every record of every decode outcome, the reported player
count lies in [0, 2000]: a negative decoded player count is raised to 0,
a count above 2000 is lowered to 2000, and an in-range count is reported
unchanged. -/
theorem c9_player_count_clamped (data : List Nat) (worlds : List World)
    (hdec : decodeWorldData data = .ok worlds) :
    (∀ s ∈ reportWorldData worlds, 0 ≤ s.players ∧ s.players ≤ 2000) ∧
    (∀ w ∈ worlds,
      (w.players < 0 → (worldSample w).players = 0) ∧
      (2000 < w.players → (worldSample w).players = 2000) ∧
      (0 ≤ w.players → w.players ≤ 2000 →
        (worldSample w).players = w.players)) := by
  constructor
  · intro s hs
    simp only [reportWorldData, List.mem_map] at hs
    obtain ⟨w, _, rfl⟩ := hs
    simp only [worldSample]
    split_ifs <;> constructor <;> omega
  · intro w _
    refine ⟨?_, ?_, ?_⟩ <;>
      (simp only [worldSample]; split_ifs <;> omega)

/-- Witness for C9: a concrete decode whose single record carries the
raw player bytes of 64000, i.e. the int16 value -1536, which the
reporter raises to 0. -/
theorem c9_player_count_clamped_witness :
    (∀ s ∈ reportWorldData
        ([⟨300, 0, [], [], 0, 64000⟩].map RawRecord.toWorld),
      0 ≤ s.players ∧ s.players ≤ 2000) ∧
    (∀ w ∈ ([⟨300, 0, [], [], 0, 64000⟩].map RawRecord.toWorld),
      (w.players < 0 → (worldSample w).players = 0) ∧
      (2000 < w.players → (worldSample w).players = 2000) ∧
      (0 ≤ w.players → w.players ≤ 2000 →
        (worldSample w).players = w.players)) :=
  c9_player_count_clamped
    (0 :: 0 :: 0 :: 0 :: encodeU16 1
      ++ encodeRecords [⟨300, 0, [], [], 0, 64000⟩]) _ (by rfl)

/-- C10: reporting player stats sets the level and xp gauge cells of
every skill line, and sets the rank gauge cell exactly for the lines
whose parsed rank is non-negative; a line whose parsed rank is negative
(the hiscores sentinel -1 for unranked) gets level and xp but no rank. -/
theorem c10_unranked_skips_rank (stats : List SkillInfo)
    (mode skill player profile : String) :
    ((⟨.level, skill, player, profile, mode⟩ : PlayerMetricSample)
        ∈ reportPlayerStats stats mode ↔
      ∃ st ∈ stats, skill = st.name ∧ player = st.player ∧
        profile = st.profile) ∧
    ((⟨.xp, skill, player, profile, mode⟩ : PlayerMetricSample)
        ∈ reportPlayerStats stats mode ↔
      ∃ st ∈ stats, skill = st.name ∧ player = st.player ∧
        profile = st.profile) ∧
    ((⟨.rank, skill, player, profile, mode⟩ : PlayerMetricSample)
        ∈ reportPlayerStats stats mode ↔
      ∃ st ∈ stats, (skill = st.name ∧ player = st.player ∧
        profile = st.profile) ∧ 0 ≤ parseInt64 st.rank) := by
  induction stats with
  | nil => simp [reportPlayerStats]
  | cons st rest ih =>
    obtain ⟨ih1, ih2, ih3⟩ := ih
    by_cases hr : 0 ≤ parseInt64 st.rank <;>
      simp [reportPlayerStats, playerSamplesFor, hr,
        PlayerMetricSample.mk.injEq, ih1, ih2, ih3,
        List.exists_mem_cons_iff]

end GameStats
